/-
Verification of the post-generation hook script of this repository
(src/python/hooks/post_gen_project.py).

The script is shallowly embedded: the regular expression
^3\.\d+\.\d+$ is modelled by an executable predicate on strings
(ASCII digits), and re.sub with the pattern requires-python = ".*"
is modelled line by line, reflecting that Python's . does not match
a newline and that the greedy .* extends to the last double quote of
the line.  External subprocesses are modelled by an outcome datatype:
running an absent executable through subprocess.run with an argument
list raises FileNotFoundError, a completed run carries its return
code and stdout.  Replacement strings are inserted literally, which
matches Python for replacement strings free of backslashes.
-/
import Mathlib

namespace PostGenHook

/-- Whitespace characters stripped by Python str.strip (ASCII part). -/
def isPySpace (c : Char) : Bool :=
  c == ' ' || c == '\t' || c == '\n' || c == '\r' || c == '\x0b' || c == '\x0c'

/-- Model of Python str.strip on the character list of a string. -/
def pyStripChars (l : List Char) : List Char :=
  ((l.dropWhile isPySpace).reverse.dropWhile isPySpace).reverse

/-- Model of Python str.strip. -/
def pyStrip (s : String) : String :=
  String.mk (pyStripChars s.data)

/-- Split a character list at every occurrence of a separator. -/
def splitOnChar (sep : Char) : List Char → List (List Char)
  | [] => [[]]
  | c :: cs =>
    if c == sep then [] :: splitOnChar sep cs
    else
      match splitOnChar sep cs with
      | [] => [[c]]
      | g :: gs => (c :: g) :: gs

/-- Join character lists with a separator, inverse of splitOnChar. -/
def joinChar (sep : Char) : List (List Char) → List Char
  | [] => []
  | [x] => x
  | x :: y :: xs => x ++ sep :: joinChar sep (y :: xs)

/-- Model of Python str.splitlines as used on stripped pyenv output:
an empty string yields no lines, otherwise split at newlines. -/
def pySplitlines (s : String) : List String :=
  if s.data.isEmpty then []
  else (splitOnChar '\n' s.data).map String.mk

/-- One or more ASCII digits, the model of the regex fragment \d+. -/
def isDigits (l : List Char) : Bool :=
  !l.isEmpty && l.all Char.isDigit

/-- Model of re.match against the anchored pattern ^3\.\d+\.\d+$:
exactly three dot-separated components, the first the literal 3,
the other two nonempty digit strings. -/
def matchesVersionPattern (s : String) : Bool :=
  match splitOnChar '.' s.data with
  | [a, b, c] => a == ['3'] && isDigits b && isDigits c
  | _ => false

/-- First two dot-separated components rejoined with a dot:
the model of the join-split-take-2 in the script. -/
def majorMinor (v : String) : String :=
  String.mk (joinChar '.' ((splitOnChar '.' v.data).take 2))

/-- Outcome of subprocess.run on the pyenv version listing command:
either the executable is absent (Python raises FileNotFoundError)
or the command completed with a return code and a stdout text. -/
inductive SubprocessOutcome where
  | notFound
  | completed (returncode : Int) (stdout : String)
deriving DecidableEq

/-- Unhandled Python exceptions the script can die with. -/
inductive PyError where
  | fileNotFoundError
  | calledProcessError
deriving DecidableEq

/-- Embedding of get_installed_python_versions: absent executable
raises, a non-zero return code yields the empty list, otherwise the
stripped stdout is split into lines. -/
def get_installed_python_versions :
    SubprocessOutcome → Except PyError (List String)
  | SubprocessOutcome.notFound => Except.error PyError.fileNotFoundError
  | SubprocessOutcome.completed returncode stdout =>
    if returncode ≠ 0 then Except.ok []
    else Except.ok (pySplitlines (pyStrip stdout))

/-- Embedding of get_latest_installed_python_version: filter the
list by the version pattern, take the last element of the filtered
list, keep its first two dot-separated components. -/
def get_latest_installed_python_version
    (installed_versions : List String) : Option String :=
  match (installed_versions.filter matchesVersionPattern).getLast? with
  | some latest_installed_version => some (majorMinor latest_installed_version)
  | none => none

/-- The literal part of the substitution pattern up to and including
the opening double quote. -/
def litChars : List Char := "requires-python = \"".data

/-- The literal without its final double quote. -/
def initChars : List Char := "requires-python = ".data

/-- Boolean test for the presence of a double quote. -/
def hasQuote : List Char → Bool
  | [] => false
  | c :: cs => c == '"' || hasQuote cs

/-- The suffix of a line after its last double quote (the whole
line when it holds no quote at all). -/
def afterLastQuote : List Char → List Char
  | [] => []
  | c :: cs => if c == '"' && !hasQuote cs then cs else afterLastQuote cs

/-- One line of re.sub with pattern requires-python = ".*": scan for
the leftmost position where the literal part matches and a closing
quote exists further right; the greedy .* then reaches the last
quote of the line.  Replacement strings are inserted literally. -/
def subLineChars (v : List Char) : List Char → List Char
  | [] => []
  | c :: cs =>
    if litChars.isPrefixOf (c :: cs) && hasQuote ((c :: cs).drop litChars.length) then
      litChars ++ v ++ '"' :: afterLastQuote ((c :: cs).drop litChars.length)
    else c :: subLineChars v cs

/-- Whether a line contains a match of the substitution pattern. -/
def lineHasMatch : List Char → Bool
  | [] => false
  | c :: cs =>
    (litChars.isPrefixOf (c :: cs) && hasQuote ((c :: cs).drop litChars.length)) ||
      lineHasMatch cs

/-- re.sub over a whole text: the pattern cannot cross a newline, so
the text is processed line by line. -/
def updateChars (content v : List Char) : List Char :=
  joinChar '\n' ((splitOnChar '\n' content).map (subLineChars v))

/-- Embedding of update_pyproject_toml as a pure transformation of
the file content read from and written back to pyproject.toml. -/
def update_pyproject_toml (content python_version : String) : String :=
  String.mk (updateChars content.data python_version.data)

/-- The inputs of one run that the environment decides: the outcome
of the pyenv version listing and the exit code of the pdm use shell
command. -/
structure Env where
  pyenvVersions : SubprocessOutcome
  pdmUseExit : Int
deriving DecidableEq

instance : DecidableEq (Except PyError String) := fun a b =>
  match a, b with
  | Except.error e, Except.error f =>
    if h : e = f then isTrue (congrArg Except.error h)
    else isFalse (fun hc => h (by injection hc))
  | Except.error _, Except.ok _ => isFalse (fun hc => Except.noConfusion hc)
  | Except.ok _, Except.error _ => isFalse (fun hc => Except.noConfusion hc)
  | Except.ok x, Except.ok y =>
    if h : x = y then isTrue (congrArg Except.ok h)
    else isFalse (fun hc => h (by injection hc))

/-- Observable behaviour of one run of main: whether pyenv versions
was invoked, whether update_pyproject_toml was called, the final
content of pyproject.toml, the version string handed to the pdm use
command (none when the script dies earlier), and the outcome: the
final min_python on success, the unhandled exception otherwise. -/
structure MainTrace where
  invokedPyenvVersions : Bool
  calledUpdate : Bool
  file : String
  pdmArg : Option String
  outcome : Except PyError String
deriving DecidableEq

/-- Embedding of main.  The template placeholder value, the
environment and the initial pyproject.toml content are inputs; the
subprocess for pdm use runs with check=True, so a non-zero exit
raises CalledProcessError after the file was already rewritten. -/
def main (min_python0 : String) (env : Env) (pyproject : String) : MainTrace :=
  if (pyStrip min_python0).data.isEmpty then
    match get_installed_python_versions env.pyenvVersions with
    | Except.error e => ⟨true, false, pyproject, none, Except.error e⟩
    | Except.ok installed_versions =>
      let latest_version := get_latest_installed_python_version installed_versions
      let min_python : String :=
        match latest_version with
        | some v => ">=" ++ v
        | none => ">=3.8"
      let newFile := update_pyproject_toml pyproject min_python
      if env.pdmUseExit = 0 then
        ⟨true, true, newFile, some min_python, Except.ok min_python⟩
      else
        ⟨true, true, newFile, some min_python, Except.error PyError.calledProcessError⟩
  else
    if env.pdmUseExit = 0 then
      ⟨false, false, pyproject, some min_python0, Except.ok min_python0⟩
    else
      ⟨false, false, pyproject, some min_python0, Except.error PyError.calledProcessError⟩

theorem hasQuote_append (l r : List Char) :
    hasQuote (l ++ r) = (hasQuote l || hasQuote r) := by
  induction l with
  | nil => simp [hasQuote]
  | cons c cs ih => simp [hasQuote, ih, Bool.or_assoc]

theorem hasQuote_eq_false_cons {c : Char} {cs : List Char}
    (h : hasQuote (c :: cs) = false) : hasQuote cs = false := by
  simp [hasQuote] at h
  exact h.2

theorem mem_afterLastQuote {x : Char} : ∀ {l : List Char},
    x ∈ afterLastQuote l → x ∈ l
  | [], h => by simp [afterLastQuote] at h
  | c :: cs, h => by
    rw [afterLastQuote] at h
    by_cases hc : (c == '"' && !hasQuote cs) = true
    · rw [if_pos hc] at h
      exact List.mem_cons_of_mem _ h
    · rw [if_neg hc] at h
      exact List.mem_cons_of_mem _ (mem_afterLastQuote h)

theorem hasQuote_afterLastQuote : ∀ {l : List Char},
    hasQuote l = true → hasQuote (afterLastQuote l) = false
  | [], h => by simp [hasQuote] at h
  | c :: cs, h => by
    rw [afterLastQuote]
    by_cases hc : (c == '"' && !hasQuote cs) = true
    · rw [if_pos hc]
      have := (Bool.and_eq_true _ _).mp hc
      simpa using this.2
    · rw [if_neg hc]
      cases hq : hasQuote cs with
      | true => exact hasQuote_afterLastQuote hq
      | false =>
        exfalso
        simp [hasQuote, hq] at h
        simp [h, hq] at hc

theorem afterLastQuote_append_quote {after : List Char}
    (h : hasQuote after = false) :
    ∀ v : List Char, afterLastQuote (v ++ '"' :: after) = after
  | [] => by simp [afterLastQuote, h]
  | c :: v' => by
    have hq : hasQuote (v' ++ '"' :: after) = true := by
      simp [hasQuote_append, hasQuote]
    have ih := afterLastQuote_append_quote h v'
    rw [List.cons_append, afterLastQuote, hq]
    simpa using ih

theorem isPrefixOf_append_self : ∀ (p t : List Char),
    p.isPrefixOf (p ++ t) = true
  | [], t => by cases t <;> rfl
  | a :: p', t => by
    simp [List.isPrefixOf, isPrefixOf_append_self p' t]

theorem eq_append_drop_of_isPrefixOf : ∀ {p l : List Char},
    p.isPrefixOf l = true → l = p ++ l.drop p.length
  | [], l, _ => rfl
  | a :: p', [], h => by simp [List.isPrefixOf] at h
  | a :: p', b :: l', h => by
    rw [List.isPrefixOf] at h
    have := (Bool.and_eq_true _ _).mp h
    have hab : a = b := eq_of_beq this.1
    have ih := eq_append_drop_of_isPrefixOf this.2
    simp [← hab, List.length_cons, List.drop_succ_cons]
    exact ih

theorem isPrefixOf_congr_take : ∀ (p x y : List Char),
    x.take p.length = y.take p.length → p.isPrefixOf x = p.isPrefixOf y
  | [], x, y, _ => by cases x <;> cases y <;> rfl
  | a :: p', [], [], _ => rfl
  | a :: p', [], c :: y', h => by
    simp [List.length_cons, List.take_succ_cons] at h
  | a :: p', b :: x', [], h => by
    simp [List.length_cons, List.take_succ_cons] at h
  | a :: p', b :: x', c :: y', h => by
    simp only [List.length_cons, List.take_succ_cons, List.cons.injEq] at h
    simp [List.isPrefixOf, h.1, isPrefixOf_congr_take p' x' y' h.2]

theorem subLineChars_pos (v : List Char) {l : List Char}
    (h1 : litChars.isPrefixOf l = true)
    (h2 : hasQuote (l.drop litChars.length) = true) :
    subLineChars v l =
      litChars ++ v ++ '"' :: afterLastQuote (l.drop litChars.length) := by
  cases l with
  | nil => exact absurd h1 (by decide)
  | cons c cs =>
    rw [subLineChars, if_pos (by rw [h1, h2]; rfl)]

theorem subLineChars_append_lit (v tail : List Char)
    (h : hasQuote tail = true) :
    subLineChars v (litChars ++ tail) =
      litChars ++ v ++ '"' :: afterLastQuote tail := by
  have h1 : litChars.isPrefixOf (litChars ++ tail) = true :=
    isPrefixOf_append_self _ _
  have hd : (litChars ++ tail).drop litChars.length = tail := List.drop_left _ _
  rw [subLineChars_pos v h1 (by rw [hd]; exact h), hd]

theorem subLineChars_take (v : List Char) : ∀ (cs : List Char) (n : Nat),
    n ≤ litChars.length →
    ((subLineChars v cs).take n = cs.take n ∨ subLineChars v cs = cs)
  | [], _, _ => Or.inr rfl
  | c :: cs', n, hn => by
    by_cases hc : (litChars.isPrefixOf (c :: cs') &&
        hasQuote ((c :: cs').drop litChars.length)) = true
    · left
      rw [Bool.and_eq_true] at hc
      have hdec := eq_append_drop_of_isPrefixOf hc.1
      rw [subLineChars_pos v hc.1 hc.2, List.append_assoc]
      conv_rhs => rw [hdec]
      exact (List.take_append_of_le_length hn).trans
        (List.take_append_of_le_length hn).symm
    · have hstep : subLineChars v (c :: cs') = c :: subLineChars v cs' := by
        rw [subLineChars, if_neg hc]
      cases n with
      | zero => exact Or.inl (by simp)
      | succ m =>
        have hm : m ≤ litChars.length := Nat.le_of_succ_le hn
        rcases subLineChars_take v cs' m hm with ht | he
        · exact Or.inl (by rw [hstep, List.take_succ_cons, List.take_succ_cons, ht])
        · exact Or.inr (by rw [hstep, he])

theorem subLineChars_of_no_match (v : List Char) : ∀ {l : List Char},
    lineHasMatch l = false → subLineChars v l = l
  | [], _ => rfl
  | c :: cs, h => by
    rw [lineHasMatch, Bool.or_eq_false_iff] at h
    rw [subLineChars, if_neg (by simp [h.1]), subLineChars_of_no_match v h.2]

theorem subLineChars_of_no_quote (v : List Char) : ∀ (cs : List Char) (n : Nat),
    n ≤ initChars.length → hasQuote (cs.drop n) = false →
    subLineChars v cs = cs
  | [], _, _, _ => rfl
  | c :: cs', n, hn, h => by
    have hpre : litChars.isPrefixOf (c :: cs') = false := by
      cases hp : litChars.isPrefixOf (c :: cs') with
      | false => rfl
      | true =>
        exfalso
        have hdec := eq_append_drop_of_isPrefixOf hp
        rw [hdec] at h
        have hlit : hasQuote (litChars.drop n) = true := by
          have h18 : initChars.length = 18 := by decide
          have hn18 : n ≤ 18 := by omega
          interval_cases n <;> decide
        rw [List.drop_append_eq_append_drop, hasQuote_append, hlit] at h
        simp at h
    have hstep : subLineChars v (c :: cs') = c :: subLineChars v cs' := by
      rw [subLineChars, if_neg (by simp [hpre])]
    rw [hstep]
    congr 1
    cases n with
    | zero =>
      refine subLineChars_of_no_quote v cs' 0 (Nat.zero_le _) ?_
      rw [List.drop_zero] at h ⊢
      exact hasQuote_eq_false_cons h
    | succ m =>
      refine subLineChars_of_no_quote v cs' m (Nat.le_of_succ_le hn) ?_
      rwa [List.drop_succ_cons] at h

theorem subLineChars_idem (v : List Char) : ∀ (l : List Char),
    subLineChars v (subLineChars v l) = subLineChars v l
  | [] => rfl
  | c :: cs => by
    by_cases hc : (litChars.isPrefixOf (c :: cs) &&
        hasQuote ((c :: cs).drop litChars.length)) = true
    · rw [Bool.and_eq_true] at hc
      rw [subLineChars_pos v hc.1 hc.2]
      have hq2 : hasQuote (v ++ '"' ::
          afterLastQuote ((c :: cs).drop litChars.length)) = true := by
        simp [hasQuote_append, hasQuote]
      rw [List.append_assoc, subLineChars_append_lit v _ hq2,
        afterLastQuote_append_quote (hasQuote_afterLastQuote hc.2) v,
        List.append_assoc]
    · have hstep : subLineChars v (c :: cs) = c :: subLineChars v cs := by
        rw [subLineChars, if_neg hc]
      have hc2 : ¬ (litChars.isPrefixOf (c :: subLineChars v cs) &&
          hasQuote ((c :: subLineChars v cs).drop litChars.length)) = true := by
        intro hcc
        have h2 := hcc
        rw [Bool.and_eq_true] at h2
        cases hpre : litChars.isPrefixOf (c :: cs) with
        | true =>
          have hqf : hasQuote ((c :: cs).drop litChars.length) = false := by
            cases hq : hasQuote ((c :: cs).drop litChars.length) with
            | false => rfl
            | true => exact absurd (by rw [hpre, hq]; rfl) hc
          have hdrop : (c :: cs).drop litChars.length = cs.drop initChars.length := rfl
          have hid : subLineChars v cs = cs :=
            subLineChars_of_no_quote v cs initChars.length (le_refl _)
              (by rw [← hdrop]; exact hqf)
          rw [hid] at hcc
          exact hc hcc
        | false =>
          rcases subLineChars_take v cs litChars.length (le_refl _) with ht | he
          · have hmin : initChars.length ⊓ litChars.length = initChars.length := by decide
            have ht18 : (subLineChars v cs).take initChars.length =
                cs.take initChars.length := by
              have h' := congrArg (List.take initChars.length) ht
              rwa [List.take_take, List.take_take, hmin] at h'
            have htake : (c :: subLineChars v cs).take litChars.length =
                (c :: cs).take litChars.length := by
              have e1 : (c :: subLineChars v cs).take litChars.length =
                  c :: (subLineChars v cs).take initChars.length := rfl
              have e2 : (c :: cs).take litChars.length =
                  c :: cs.take initChars.length := rfl
              rw [e1, e2, ht18]
            have hpeq := isPrefixOf_congr_take litChars _ _ htake
            have hA := h2.1
            rw [hpeq, hpre] at hA
            exact absurd hA (by decide)
          · rw [he] at hcc
            exact hc hcc
      rw [hstep, subLineChars, if_neg hc2, subLineChars_idem v cs]

theorem subLineChars_no_newline (v : List Char) : ∀ (l : List Char),
    '\n' ∉ l → '\n' ∉ v → '\n' ∉ subLineChars v l
  | [], _, _ => by simp [subLineChars]
  | c :: cs, hl, hv => by
    by_cases hc : (litChars.isPrefixOf (c :: cs) &&
        hasQuote ((c :: cs).drop litChars.length)) = true
    · rw [Bool.and_eq_true] at hc
      rw [subLineChars_pos v hc.1 hc.2]
      intro hmem
      rcases List.mem_append.mp hmem with hin | hin
      · rcases List.mem_append.mp hin with hin2 | hin2
        · exact absurd hin2 (by decide)
        · exact hv hin2
      · rcases List.mem_cons.mp hin with hq | hin3
        · exact absurd hq (by decide)
        · exact hl (List.mem_of_mem_drop (mem_afterLastQuote hin3))
    · rw [subLineChars, if_neg hc]
      intro hmem
      rcases List.mem_cons.mp hmem with hq | hin
      · exact hl (hq ▸ List.mem_cons_self c cs)
      · exact subLineChars_no_newline v cs
          (fun hx => hl (List.mem_cons_of_mem c hx)) hv hin

theorem splitOnChar_ne_nil (sep : Char) : ∀ (l : List Char),
    splitOnChar sep l ≠ []
  | [] => by simp [splitOnChar]
  | c :: cs => by
    rw [splitOnChar]
    by_cases hc : (c == sep) = true
    · simp [hc]
    · rw [if_neg hc]
      cases hs : splitOnChar sep cs with
      | nil => simp
      | cons g gs => simp

theorem splitOnChar_parts_no_sep (sep : Char) : ∀ (l : List Char) (x : List Char),
    x ∈ splitOnChar sep l → sep ∉ x
  | [], x, hx => by
    simp [splitOnChar] at hx
    simp [hx]
  | c :: cs, x, hx => by
    rw [splitOnChar] at hx
    by_cases hc : (c == sep) = true
    · rw [if_pos hc] at hx
      rcases List.mem_cons.mp hx with h0 | h1
      · simp [h0]
      · exact splitOnChar_parts_no_sep sep cs x h1
    · rw [if_neg hc] at hx
      cases hs : splitOnChar sep cs with
      | nil => exact absurd hs (splitOnChar_ne_nil sep cs)
      | cons g gs =>
        rw [hs] at hx
        rcases List.mem_cons.mp hx with h0 | h1
        · subst h0
          intro hmem
          rcases List.mem_cons.mp hmem with h2 | h3
          · exact hc (by rw [h2]; exact beq_self_eq_true c)
          · exact splitOnChar_parts_no_sep sep cs g
              (hs ▸ List.mem_cons_self g gs) h3
        · exact splitOnChar_parts_no_sep sep cs x (hs ▸ List.mem_cons_of_mem g h1)

theorem splitOnChar_of_no_sep (sep : Char) : ∀ (l : List Char),
    sep ∉ l → splitOnChar sep l = [l]
  | [], _ => rfl
  | c :: cs, h => by
    have hne : c ≠ sep := by
      intro he
      subst he
      exact h (List.mem_cons_self c cs)
    have hc : (c == sep) = false := beq_eq_false_iff_ne.mpr hne
    rw [splitOnChar, if_neg (by simp [hc]),
      splitOnChar_of_no_sep sep cs (fun hx => h (List.mem_cons_of_mem c hx))]

theorem splitOnChar_append_sep (sep : Char) (r : List Char) : ∀ (x : List Char),
    sep ∉ x → splitOnChar sep (x ++ sep :: r) = x :: splitOnChar sep r
  | [], _ => by
    rw [List.nil_append, splitOnChar, if_pos (beq_self_eq_true sep)]
  | c :: x', h => by
    have hne : c ≠ sep := by
      intro he
      subst he
      exact h (List.mem_cons_self c x')
    have hc : (c == sep) = false := beq_eq_false_iff_ne.mpr hne
    rw [List.cons_append, splitOnChar, if_neg (by simp [hc]),
      splitOnChar_append_sep sep r x' (fun hx => h (List.mem_cons_of_mem c hx))]

theorem splitOnChar_joinChar (sep : Char) : ∀ (xs : List (List Char)),
    xs ≠ [] → (∀ x ∈ xs, sep ∉ x) →
    splitOnChar sep (joinChar sep xs) = xs
  | [], h, _ => absurd rfl h
  | [x], _, hall => by
    rw [joinChar, splitOnChar_of_no_sep sep x (hall x (List.mem_cons_self x []))]
  | x :: y :: xs, _, hall => by
    rw [joinChar, splitOnChar_append_sep sep (joinChar sep (y :: xs)) x
      (hall x (List.mem_cons_self x (y :: xs))),
      splitOnChar_joinChar sep (y :: xs) (by simp)
        (fun z hz => hall z (List.mem_cons_of_mem x hz))]

theorem map_subLineChars_idem (v : List Char) (ls : List (List Char)) :
    (ls.map (subLineChars v)).map (subLineChars v) = ls.map (subLineChars v) := by
  induction ls with
  | nil => rfl
  | cons x xs ih => simp [List.map_cons, subLineChars_idem, ih]

theorem updateChars_idem (content v : List Char) (hv : '\n' ∉ v) :
    updateChars (updateChars content v) v = updateChars content v := by
  have hparts : ∀ x ∈ (splitOnChar '\n' content).map (subLineChars v), '\n' ∉ x := by
    intro x hx
    rcases List.mem_map.mp hx with ⟨y, hy, rfl⟩
    exact subLineChars_no_newline v y (splitOnChar_parts_no_sep '\n' content y hy) hv
  have hne : (splitOnChar '\n' content).map (subLineChars v) ≠ [] := by
    intro h
    exact splitOnChar_ne_nil '\n' content (List.map_eq_nil_iff.mp h)
  rw [updateChars, updateChars, splitOnChar_joinChar '\n' _ hne hparts,
    map_subLineChars_idem]

theorem filter_getLast_decomp (p : String → Bool) : ∀ (l : List String),
    l.filter p ≠ [] →
    ∃ pre v post, l = pre ++ v :: post ∧ p v = true ∧
      (∀ u ∈ post, p u = false) ∧ (l.filter p).getLast? = some v
  | [], h => absurd rfl h
  | a :: t, h => by
    by_cases ht : t.filter p = []
    · have hpa : p a = true := by
        cases hpa : p a with
        | true => rfl
        | false =>
          exfalso
          exact h (by rw [List.filter_cons_of_neg (by simp [hpa]), ht])
      refine ⟨[], a, t, rfl, hpa, ?_, ?_⟩
      · intro u hu
        have hnu := List.filter_eq_nil_iff.mp ht u hu
        cases hpu : p u with
        | true => exact absurd hpu hnu
        | false => rfl
      · rw [List.filter_cons_of_pos hpa, ht]
        rfl
    · obtain ⟨pre, v, post, heq, hv, hpost, hlast⟩ := filter_getLast_decomp p t ht
      refine ⟨a :: pre, v, post, by rw [heq]; rfl, hv, hpost, ?_⟩
      cases hpa : p a with
      | false =>
        rw [List.filter_cons_of_neg (by simp [hpa])]
        exact hlast
      | true =>
        rw [List.filter_cons_of_pos hpa]
        cases hft : t.filter p with
        | nil => exact absurd hft ht
        | cons b l' =>
          rw [hft] at hlast
          rw [List.getLast?_cons_cons]
          exact hlast

theorem majorMinor_of_matches {v : String}
    (h : matchesVersionPattern v = true) :
    ∃ minor : List Char, minor ≠ [] ∧ minor.all Char.isDigit = true ∧
      majorMinor v = String.mk ('3' :: '.' :: minor) := by
  unfold matchesVersionPattern at h
  cases hs : splitOnChar '.' v.data with
  | nil => rw [hs] at h; simp at h
  | cons a rest =>
    cases rest with
    | nil => rw [hs] at h; simp at h
    | cons b rest2 =>
      cases rest2 with
      | nil => rw [hs] at h; simp at h
      | cons c rest3 =>
        cases rest3 with
        | cons d rest4 => rw [hs] at h; simp at h
        | nil =>
          rw [hs] at h
          simp only [Bool.and_eq_true, beq_iff_eq] at h
          obtain ⟨⟨ha, hb⟩, _⟩ := h
          rw [isDigits, Bool.and_eq_true] at hb
          refine ⟨b, ?_, hb.2, ?_⟩
          · intro hbe
            rw [hbe] at hb
            simp at hb
          · rw [majorMinor, hs, ha]
            rfl

theorem get_latest_eq_none_of_no_match {installed : List String}
    (h : ∀ v ∈ installed, matchesVersionPattern v = false) :
    get_latest_installed_python_version installed = none := by
  have hnil : installed.filter matchesVersionPattern = [] :=
    List.filter_eq_nil_iff.mpr (fun a ha => by simp [h a ha])
  rw [get_latest_installed_python_version, hnil]
  rfl

theorem main_blank_default (env : Env) (pyproject : String) (vs : List String)
    (hv : get_installed_python_versions env.pyenvVersions = Except.ok vs)
    (hn : get_latest_installed_python_version vs = none) :
    (main "" env pyproject).calledUpdate = true ∧
    (main "" env pyproject).file = update_pyproject_toml pyproject ">=3.8" ∧
    (main "" env pyproject).pdmArg = some ">=3.8" := by
  have hstrip : ((pyStrip "").data.isEmpty) = true := rfl
  by_cases hp : env.pdmUseExit = 0 <;>
    simp [main, hstrip, hv, hn, hp]

/-- Claim C1: for every list of candidate version strings containing at
least one string matching the pattern 3.MINOR.PATCH, the function
get_latest_installed_python_version returns the major.minor prefix of
the last matching entry in the original order of the list: the list
splits as pre ++ v :: post with v matching and nothing after v
matching, and the result is the major.minor of exactly this v (so not
of the numerically greatest match). -/
theorem claim_C1_last_match (installed : List String)
    (h : ∃ v ∈ installed, matchesVersionPattern v = true) :
    ∃ pre v post, installed = pre ++ v :: post ∧
      matchesVersionPattern v = true ∧
      (∀ u ∈ post, matchesVersionPattern u = false) ∧
      get_latest_installed_python_version installed = some (majorMinor v) := by
  obtain ⟨v0, hmem, hp⟩ := h
  have hne : installed.filter matchesVersionPattern ≠ [] :=
    List.ne_nil_of_mem (List.mem_filter.mpr ⟨hmem, hp⟩)
  obtain ⟨pre, v, post, heq, hv, hpost, hlast⟩ :=
    filter_getLast_decomp matchesVersionPattern installed hne
  exact ⟨pre, v, post, heq, hv, hpost, by
    rw [get_latest_installed_python_version, hlast]⟩

/-- Witness for claim C1 at the descending list ["3.11.0", "3.9.1"]:
the selected entry is the positionally last match 3.9.1 (major.minor
3.9), not the numerically greatest 3.11.0. -/
theorem claim_C1_last_match_witness :
    (∃ v ∈ (["3.11.0", "3.9.1"] : List String),
      matchesVersionPattern v = true) ∧
    ∃ pre v post, (["3.11.0", "3.9.1"] : List String) = pre ++ v :: post ∧
      matchesVersionPattern v = true ∧
      (∀ u ∈ post, matchesVersionPattern u = false) ∧
      get_latest_installed_python_version ["3.11.0", "3.9.1"] =
        some (majorMinor v) :=
  ⟨by decide, claim_C1_last_match ["3.11.0", "3.9.1"] (by decide)⟩

/-- Claim C2 is refuted at this input: with a blank placeholder and the
version-listing executable absent, subprocess.run raises
FileNotFoundError before any fallback, so update_pyproject_toml is
never called, the file keeps its old content instead of receiving the
default >=3.8, and the run dies with the unhandled exception. -/
theorem claim_C2_counterexample :
    (main "" ⟨SubprocessOutcome.notFound, 0⟩
      "requires-python = \">=3.7\"\n").calledUpdate = false ∧
    (main "" ⟨SubprocessOutcome.notFound, 0⟩
      "requires-python = \">=3.7\"\n").file = "requires-python = \">=3.7\"\n" ∧
    (main "" ⟨SubprocessOutcome.notFound, 0⟩
      "requires-python = \">=3.7\"\n").file ≠
        update_pyproject_toml "requires-python = \">=3.7\"\n" ">=3.8" ∧
    (main "" ⟨SubprocessOutcome.notFound, 0⟩
      "requires-python = \">=3.7\"\n").outcome =
        Except.error PyError.fileNotFoundError := by
  exact ⟨rfl, rfl, by decide, rfl⟩

/-- Claim C2 (amended): for every run in which the version-listing tool
runs but exits non-zero (and the template placeholder is blank), the
selected minimum version is the hardcoded default >=3.8, and that
default is what gets written to the configuration file. -/
theorem claim_C2_nonzero_exit_default (rc : Int) (out pyproject : String)
    (pdmExit : Int) (h : rc ≠ 0) :
    (main "" ⟨SubprocessOutcome.completed rc out, pdmExit⟩
      pyproject).calledUpdate = true ∧
    (main "" ⟨SubprocessOutcome.completed rc out, pdmExit⟩ pyproject).file =
      update_pyproject_toml pyproject ">=3.8" ∧
    (main "" ⟨SubprocessOutcome.completed rc out, pdmExit⟩ pyproject).pdmArg =
      some ">=3.8" := by
  have hv : get_installed_python_versions
      (SubprocessOutcome.completed rc out) = Except.ok [] := by
    simp [get_installed_python_versions, h]
  exact main_blank_default ⟨SubprocessOutcome.completed rc out, pdmExit⟩
    pyproject [] hv rfl

/-- Witness for the amended claim C2 at return code 1. -/
theorem claim_C2_nonzero_exit_default_witness :
    (main "" ⟨SubprocessOutcome.completed 1 "", 0⟩
      "requires-python = \">=3.7\"\n").calledUpdate = true ∧
    (main "" ⟨SubprocessOutcome.completed 1 "", 0⟩
      "requires-python = \">=3.7\"\n").file =
        update_pyproject_toml "requires-python = \">=3.7\"\n" ">=3.8" ∧
    (main "" ⟨SubprocessOutcome.completed 1 "", 0⟩
      "requires-python = \">=3.7\"\n").pdmArg = some ">=3.8" :=
  claim_C2_nonzero_exit_default 1 "" "requires-python = \">=3.7\"\n" 0
    (by decide)

/-- Claim C4 is refuted at this input: when the executable is absent,
the subprocess call raises FileNotFoundError and
get_installed_python_versions propagates it instead of returning a
list. -/
theorem claim_C4_counterexample :
    get_installed_python_versions SubprocessOutcome.notFound =
      Except.error PyError.fileNotFoundError := rfl

/-- Claim C4 (amended): whenever the version-listing command itself
runs to completion, get_installed_python_versions raises nothing and
returns a list, and on a non-zero exit code that list is empty. -/
theorem claim_C4_completed_total (rc : Int) (out : String) :
    (∃ vs, get_installed_python_versions
      (SubprocessOutcome.completed rc out) = Except.ok vs) ∧
    (rc ≠ 0 → get_installed_python_versions
      (SubprocessOutcome.completed rc out) = Except.ok []) := by
  by_cases h : rc = 0
  · subst h
    exact ⟨⟨pySplitlines (pyStrip out),
      by simp [get_installed_python_versions]⟩, fun hc => absurd rfl hc⟩
  · exact ⟨⟨[], by simp [get_installed_python_versions, h]⟩,
      fun _ => by simp [get_installed_python_versions, h]⟩

/-- Witness for the amended claim C4 at return code 1. -/
theorem claim_C4_completed_total_witness :
    (∃ vs, get_installed_python_versions
      (SubprocessOutcome.completed 1 "3.8.2") = Except.ok vs) ∧
    ((1 : Int) ≠ 0 → get_installed_python_versions
      (SubprocessOutcome.completed 1 "3.8.2") = Except.ok []) :=
  claim_C4_completed_total 1 "3.8.2"

/-- Claim C6: when no candidate in the parsed listing matches the
version pattern, get_latest_installed_python_version returns none,
and main (blank placeholder, listing succeeded) takes the fallback
path: it calls update_pyproject_toml with the default >=3.8 and hands
>=3.8 to the pdm use step. -/
theorem claim_C6_no_match_default (out pyproject : String) (pdmExit : Int)
    (h : ∀ v ∈ pySplitlines (pyStrip out), matchesVersionPattern v = false) :
    get_latest_installed_python_version (pySplitlines (pyStrip out)) = none ∧
    (main "" ⟨SubprocessOutcome.completed 0 out, pdmExit⟩
      pyproject).calledUpdate = true ∧
    (main "" ⟨SubprocessOutcome.completed 0 out, pdmExit⟩ pyproject).file =
      update_pyproject_toml pyproject ">=3.8" ∧
    (main "" ⟨SubprocessOutcome.completed 0 out, pdmExit⟩ pyproject).pdmArg =
      some ">=3.8" := by
  have hn := get_latest_eq_none_of_no_match h
  have hv : get_installed_python_versions
      (SubprocessOutcome.completed 0 out) =
      Except.ok (pySplitlines (pyStrip out)) := by
    simp [get_installed_python_versions]
  obtain ⟨h1, h2, h3⟩ := main_blank_default
    ⟨SubprocessOutcome.completed 0 out, pdmExit⟩ pyproject _ hv hn
  exact ⟨hn, h1, h2, h3⟩

/-- Witness for claim C6 at the listing 2.7.18, system. -/
theorem claim_C6_no_match_default_witness :
    (∀ v ∈ pySplitlines (pyStrip "2.7.18\nsystem"),
      matchesVersionPattern v = false) ∧
    (get_latest_installed_python_version
      (pySplitlines (pyStrip "2.7.18\nsystem")) = none ∧
    (main "" ⟨SubprocessOutcome.completed 0 "2.7.18\nsystem", 0⟩
      "requires-python = \"x\"\n").calledUpdate = true ∧
    (main "" ⟨SubprocessOutcome.completed 0 "2.7.18\nsystem", 0⟩
      "requires-python = \"x\"\n").file =
        update_pyproject_toml "requires-python = \"x\"\n" ">=3.8" ∧
    (main "" ⟨SubprocessOutcome.completed 0 "2.7.18\nsystem", 0⟩
      "requires-python = \"x\"\n").pdmArg = some ">=3.8") :=
  ⟨by decide, claim_C6_no_match_default "2.7.18\nsystem"
    "requires-python = \"x\"\n" 0 (by decide)⟩

/-- Claim C9: get_latest_installed_python_version is a total function
of the input list (the embedding returns an Option, never an
exception), and its result is either none or the major.minor of some
element of the input, a string of the exact form 3.<digits>. -/
theorem claim_C9_total_shape (installed : List String) :
    get_latest_installed_python_version installed = none ∨
    ∃ v ∈ installed, ∃ minor : String, minor.data ≠ [] ∧
      minor.data.all Char.isDigit = true ∧
      get_latest_installed_python_version installed = some (majorMinor v) ∧
      majorMinor v = "3." ++ minor := by
  by_cases hne : installed.filter matchesVersionPattern = []
  · left
    rw [get_latest_installed_python_version, hne]
    rfl
  · right
    obtain ⟨pre, v, post, heq, hv, hpost, hlast⟩ :=
      filter_getLast_decomp matchesVersionPattern installed hne
    obtain ⟨minor, hmne, hdig, hmm⟩ := majorMinor_of_matches hv
    refine ⟨v, ?_, String.mk minor, hmne, hdig, ?_, ?_⟩
    · rw [heq]
      exact List.mem_append_right pre (List.mem_cons_self v post)
    · rw [get_latest_installed_python_version, hlast]
    · rw [hmm]
      rfl

/-- Claim C3 is refuted at this input: the substitution uses re.sub
with no count, so a content with two requires-python lines has BOTH
occurrences replaced, not only the first; replacing only the first
occurrence would leave the second line untouched, which is not what
update_pyproject_toml produces. -/
theorem claim_C3_counterexample :
    update_pyproject_toml
      "requires-python = \"a\"\nrequires-python = \"b\"" ">=3.11" =
      "requires-python = \">=3.11\"\nrequires-python = \">=3.11\"" ∧
    update_pyproject_toml
      "requires-python = \"a\"\nrequires-python = \"b\"" ">=3.11" ≠
      "requires-python = \">=3.11\"\nrequires-python = \"b\"" :=
  ⟨by rfl, by decide⟩

/-- Claim C3 (amended): update_pyproject_toml replaces every occurrence
of the requires-python assignment pattern, not only the first; the
content is processed line by line, and every line that contains no
match of the pattern is byte-identical before and after the patch. -/
theorem claim_C3_frame (content python_version : String) (l : List Char)
    (hl : l ∈ splitOnChar '\n' content.data)
    (hm : lineHasMatch l = false) :
    update_pyproject_toml content python_version =
      String.mk (joinChar '\n'
        ((splitOnChar '\n' content.data).map
          (subLineChars python_version.data))) ∧
    subLineChars python_version.data l = l :=
  ⟨rfl, subLineChars_of_no_match python_version.data hm⟩

/-- Witness for the amended claim C3: the line a = 1 of a two-line
content has no match and passes through unchanged. -/
theorem claim_C3_frame_witness :
    ("a = 1".data ∈
      splitOnChar '\n' "a = 1\nrequires-python = \"x\"".data) ∧
    (lineHasMatch "a = 1".data = false) ∧
    (update_pyproject_toml "a = 1\nrequires-python = \"x\"" ">=3.9" =
      String.mk (joinChar '\n'
        ((splitOnChar '\n' "a = 1\nrequires-python = \"x\"".data).map
          (subLineChars ">=3.9".data))) ∧
    subLineChars ">=3.9".data "a = 1".data = "a = 1".data) :=
  ⟨by decide, by decide,
    claim_C3_frame "a = 1\nrequires-python = \"x\"" ">=3.9" "a = 1".data
      (by decide) (by decide)⟩

/-- Claim C5: whenever the pdm use step is reached (the placeholder is
non-blank, or the version listing did not raise) and the pdm use shell
command exits non-zero, check=True raises CalledProcessError, which no
handler in the script catches: the run terminates with that unhandled
error. -/
theorem claim_C5_pdm_failure_fatal (min_python0 pyproject : String)
    (env : Env) (h1 : env.pdmUseExit ≠ 0)
    (h2 : env.pyenvVersions ≠ SubprocessOutcome.notFound) :
    (main min_python0 env pyproject).outcome =
      Except.error PyError.calledProcessError := by
  by_cases hb : ((pyStrip min_python0).data.isEmpty) = true
  · cases hpv : env.pyenvVersions with
    | notFound => exact absurd hpv h2
    | completed rc out =>
      by_cases hrc : rc = 0 <;>
        simp [main, hb, hpv, get_installed_python_versions, hrc, h1]
  · simp [main, hb, h1]

/-- Witness for claim C5: non-blank placeholder, pdm use exits 1. -/
theorem claim_C5_pdm_failure_fatal_witness :
    (main ">=3.10" ⟨SubprocessOutcome.completed 0 "", 1⟩
      "requires-python = \"x\"\n").outcome =
      Except.error PyError.calledProcessError :=
  claim_C5_pdm_failure_fatal ">=3.10" "requires-python = \"x\"\n"
    ⟨SubprocessOutcome.completed 0 "", 1⟩ (by decide) (by decide)

/-- Claim C7 is refuted at this input: with a target version string
that contains a double quote and a newline, the first application
rewrites the single requires-python line into two matching lines, and
the second application expands both again, so the results of one and
of two applications differ. -/
theorem claim_C7_counterexample :
    update_pyproject_toml
      (update_pyproject_toml "requires-python = \"old\""
        "x\"\nrequires-python = \"y")
      "x\"\nrequires-python = \"y" ≠
    update_pyproject_toml "requires-python = \"old\""
      "x\"\nrequires-python = \"y" := by
  decide

/-- Claim C7 (amended): for every file content and every target version
string that contains no newline character (and no backslash, so that
the literal-insertion model of the replacement coincides with Python),
applying update_pyproject_toml twice with the same target version is
idempotent. -/
theorem claim_C7_idempotent (content python_version : String)
    (h1 : '\n' ∉ python_version.data)
    (h2 : '\\' ∉ python_version.data) :
    update_pyproject_toml
        (update_pyproject_toml content python_version) python_version =
      update_pyproject_toml content python_version :=
  congrArg String.mk
    (updateChars_idem content.data python_version.data h1)

/-- Witness for the amended claim C7 at the version >=3.11. -/
theorem claim_C7_idempotent_witness :
    update_pyproject_toml
        (update_pyproject_toml
          "[project]\nrequires-python = \">=3.8\"\n" ">=3.11") ">=3.11" =
      update_pyproject_toml
        "[project]\nrequires-python = \">=3.8\"\n" ">=3.11" :=
  claim_C7_idempotent "[project]\nrequires-python = \">=3.8\"\n" ">=3.11"
    (by decide) (by decide)

/-- Claim C8: end-to-end scenario with the listing 3.9.1, 3.10.4,
3.11.0 and a blank placeholder: the selected constraint is >=3.11, the
requires-python line of the configuration file becomes
requires-python = ">=3.11", and pdm use receives >=3.11. -/
theorem claim_C8_scenario1 :
    main "" ⟨SubprocessOutcome.completed 0 "3.9.1\n3.10.4\n3.11.0", 0⟩
      "[project]\nname = \"demo\"\nrequires-python = \">=3.8\"\n" =
    ⟨true, true,
      "[project]\nname = \"demo\"\nrequires-python = \">=3.11\"\n",
      some ">=3.11", Except.ok ">=3.11"⟩ := by
  rfl

/-- Claim C10: for every non-blank template placeholder, main skips
version discovery entirely: pyenv versions is not invoked,
update_pyproject_toml is not called, the configuration file is
untouched, and the pdm use step receives the placeholder value
unchanged. -/
theorem claim_C10_nonblank_frame (min_python0 pyproject : String)
    (env : Env) (h : ((pyStrip min_python0).data.isEmpty) = false) :
    (main min_python0 env pyproject).invokedPyenvVersions = false ∧
    (main min_python0 env pyproject).calledUpdate = false ∧
    (main min_python0 env pyproject).file = pyproject ∧
    (main min_python0 env pyproject).pdmArg = some min_python0 := by
  by_cases hp : env.pdmUseExit = 0 <;> simp [main, h, hp]

/-- Witness for claim C10 at the placeholder >=3.10. -/
theorem claim_C10_nonblank_frame_witness :
    (main ">=3.10" ⟨SubprocessOutcome.completed 0 "3.11.0", 0⟩
      "requires-python = \"x\"\n").invokedPyenvVersions = false ∧
    (main ">=3.10" ⟨SubprocessOutcome.completed 0 "3.11.0", 0⟩
      "requires-python = \"x\"\n").calledUpdate = false ∧
    (main ">=3.10" ⟨SubprocessOutcome.completed 0 "3.11.0", 0⟩
      "requires-python = \"x\"\n").file = "requires-python = \"x\"\n" ∧
    (main ">=3.10" ⟨SubprocessOutcome.completed 0 "3.11.0", 0⟩
      "requires-python = \"x\"\n").pdmArg = some ">=3.10" :=
  claim_C10_nonblank_frame ">=3.10" "requires-python = \"x\"\n"
    ⟨SubprocessOutcome.completed 0 "3.11.0", 0⟩ (by decide)

end PostGenHook
